import Mathlib

/-!
Verification development for the `bundle-node` repository.

The repository is a CLI/HTTP binary (`core/src`) plus editor-extension
wrappers.  The definitions below are shallow embeddings, translated from
the TypeScript sources:

* `core/src/utils/code-actions.ts` — `analyzeCode`, `formatCode`;
* `core/src/cli.ts` (DatabaseManager chunk) — `GlobalStorage`, the pkg
  in-memory SQLite fallback (`db.run`, `db.all`), `DatabaseManager`
  operations;
* `core/src/commands/HomeCommand.ts` — the `home` subcommand dispatch;
* `unnamed/part_007` — `DatabaseService.makeRequest`, `isServerRunning`,
  `ensureServerRunning` (the pending-connection guard);
* `unnamed/part_008` — `DatabaseService.performHealthCheck`;
* `unnamed/part_012` / `core/src/server/HttpServer.ts` — the HTTP
  `/analyze` and `/format` handlers.

JavaScript strings are modelled as `List Char` (or Lean `String` where
convenient); JavaScript numbers that are only ever non-negative integers
are modelled as `Nat` (with the explicit remark wherever `Nat`
truncating subtraction coincides with the JS `Math.max(0, x - 1)`
idiom); `undefined`/absent values are `Option`; thrown exceptions are
`Except`.
-/

/-! ## JavaScript string primitives -/

/-- Word character for the JS regex class `\w`: `[A-Za-z0-9_]`. -/
def isWordChar (c : Char) : Bool :=
  (('a' ≤ c && c ≤ 'z') || ('A' ≤ c && c ≤ 'Z') || ('0' ≤ c && c ≤ '9') || c == '_')

/-- Whitespace for the JS regex class `\s` and `String.prototype.trim`:
space, tab, LF, CR, vertical tab, form feed, NBSP, BOM.  (The full JS
definition also has the rarer Unicode space separators; the sources only
ever meet ASCII whitespace.) -/
def isJsSpace (c : Char) : Bool :=
  c == ' ' || c == '\t' || c == '\n' || c == '\r' ||
    c.toNat == 11 || c.toNat == 12 || c.toNat == 160 || c.toNat == 0xFEFF

/-- JS `code.split("\n")`: always returns at least one piece; a trailing
newline yields a trailing empty piece. -/
def splitLines : List Char → List (List Char)
  | [] => [[]]
  | c :: cs =>
    if c == '\n' then [] :: splitLines cs
    else
      match splitLines cs with
      | [] => [[c]]
      | l :: ls => (c :: l) :: ls

/-- JS `lines.join("\n")`. -/
def joinLines : List (List Char) → List Char
  | [] => []
  | [l] => l
  | l :: ls => l ++ '\n' :: joinLines ls

/-- JS `String.prototype.trimStart` on a character list. -/
def trimL (l : List Char) : List Char := l.dropWhile isJsSpace

/-- JS `String.prototype.trim`: drop whitespace from both ends. -/
def jsTrim (l : List Char) : List Char :=
  ((trimL l).reverse.dropWhile isJsSpace).reverse

/-! ## `formatCode` (core/src/utils/code-actions.ts, lines 83–122)

The formatter splits on `"\n"`, trims every line, tracks an indent level
(decremented before printing a line that starts with a closing bracket,
incremented after a line that ends with an opening one) and re-joins.
-/

/-- `trimmed.startsWith("}") || trimmed.startsWith("]") || trimmed.startsWith(")")`. -/
def startsWithCloser : List Char → Bool
  | [] => false
  | c :: _ => c == '}' || c == ']' || c == ')'

/-- `trimmed.endsWith("{") || trimmed.endsWith("[") || trimmed.endsWith("(")`. -/
def endsWithOpener (l : List Char) : Bool :=
  match l.getLast? with
  | some c => c == '{' || c == '[' || c == '('
  | none => false

/-- The `for (let line of lines)` loop body of `formatCode`, carrying
`indentLevel`.  `Math.max(0, indentLevel - 1)` is Nat truncating
subtraction. -/
def formatLines : Nat → List (List Char) → List (List Char)
  | _, [] => []
  | indentLevel, line :: rest =>
    let trimmed := jsTrim line
    if trimmed.isEmpty then
      [] :: formatLines indentLevel rest
    else
      let lvl := if startsWithCloser trimmed then indentLevel - 1 else indentLevel
      let out := List.replicate (2 * lvl) ' ' ++ trimmed
      let lvl2 := if endsWithOpener trimmed then lvl + 1 else lvl
      out :: formatLines lvl2 rest

/-- `formatCode` from `core/src/utils/code-actions.ts`. -/
def formatCode (code : String) : String :=
  String.mk (joinLines (formatLines 0 (splitLines code.data)))

/-! ### Helper lemmas about `dropWhile`, `splitLines`, `joinLines`, `jsTrim` -/

theorem dropWhile_length_le (p : Char → Bool) (l : List Char) :
    (l.dropWhile p).length ≤ l.length := by
  induction l with
  | nil => simp
  | cons c cs ih =>
    by_cases hp : p c
    · simp only [List.dropWhile, hp]
      exact Nat.le_trans ih (Nat.le_succ _)
    · simp [List.dropWhile, hp]

theorem dropWhile_head_false {p : Char → Bool} {l : List Char} {c : Char} {t : List Char}
    (h : l.dropWhile p = c :: t) : p c = false := by
  induction l with
  | nil => simp [List.dropWhile] at h
  | cons a as ih =>
    by_cases hp : p a
    · simp [List.dropWhile, hp] at h
      exact ih h
    · simp [List.dropWhile, hp] at h
      rcases h with ⟨rfl, -⟩
      simpa using hp

theorem dropWhile_idem (p : Char → Bool) (l : List Char) :
    (l.dropWhile p).dropWhile p = l.dropWhile p := by
  cases h : l.dropWhile p with
  | nil => simp
  | cons c t =>
    have hc := dropWhile_head_false h
    simp [List.dropWhile, hc]

theorem dropWhile_replicate_append (p : Char → Bool) (a : Char) (ha : p a = true)
    (n : Nat) (l : List Char) :
    (List.replicate n a ++ l).dropWhile p = l.dropWhile p := by
  induction n with
  | zero => simp
  | succ n ih => simp [List.replicate_succ, List.dropWhile, ha, ih]

theorem dropWhile_exists_prefix (p : Char → Bool) (l : List Char) :
    ∃ t, l = t ++ l.dropWhile p := by
  induction l with
  | nil => exact ⟨[], rfl⟩
  | cons c cs ih =>
    by_cases hp : p c
    · obtain ⟨t, ht⟩ := ih
      exact ⟨c :: t, by simp [List.dropWhile, hp]; exact ht⟩
    · exact ⟨[], by simp [List.dropWhile, hp]⟩

/-- If a list is `dropWhile`-fixed then so is each of its prefixes. -/
theorem dropWhile_fixed_of_prefix (p : Char → Bool) {l t u : List Char}
    (hfix : l.dropWhile p = l) (hsplit : l = t ++ u) : t.dropWhile p = t := by
  cases t with
  | nil => simp
  | cons c ts =>
    have hl : l = c :: (ts ++ u) := by simp [hsplit]
    have hc : p c = false := by
      by_contra hcontra
      have hc' : p c = true := by
        cases h : p c
        · exact absurd h hcontra
        · rfl
      have := hfix
      rw [hl] at this
      simp [List.dropWhile, hc'] at this
      have hlen : ((ts ++ u).dropWhile p).length ≤ (ts ++ u).length :=
        dropWhile_length_le _ _
      rw [this] at hlen
      simp at hlen
    simp [List.dropWhile, hc]

/-- `jsTrim` output is both left- and right-trim fixed; in particular it
is a fixed point of `jsTrim`. -/
theorem trimL_jsTrim (l : List Char) : trimL (jsTrim l) = jsTrim l := by
  unfold jsTrim
  set y := trimL l with hy
  obtain ⟨t, ht⟩ := dropWhile_exists_prefix isJsSpace y.reverse
  have hyfix : y.dropWhile isJsSpace = y := by
    rw [hy]; exact dropWhile_idem isJsSpace l
  have hsplit : y = (y.reverse.dropWhile isJsSpace).reverse ++ t.reverse := by
    have := congrArg List.reverse ht
    simpa using this
  exact dropWhile_fixed_of_prefix isJsSpace hyfix hsplit

theorem jsTrim_idem (l : List Char) : jsTrim (jsTrim l) = jsTrim l := by
  unfold jsTrim
  rw [show trimL ((((trimL l).reverse.dropWhile isJsSpace).reverse)) =
        ((trimL l).reverse.dropWhile isJsSpace).reverse from trimL_jsTrim l]
  rw [List.reverse_reverse, dropWhile_idem]

/-- Prepending spaces does not change the trimmed form. -/
theorem jsTrim_replicate_space_append (n : Nat) (l : List Char) :
    jsTrim (List.replicate n ' ' ++ l) = jsTrim l := by
  unfold jsTrim trimL
  rw [dropWhile_replicate_append isJsSpace ' ' (by decide) n l]

/-- The key pointwise fact for idempotence: re-trimming an output line of
the formatter recovers the trimmed line it was printed from. -/
theorem jsTrim_indented (n : Nat) (l : List Char) :
    jsTrim (List.replicate n ' ' ++ jsTrim l) = jsTrim l := by
  rw [jsTrim_replicate_space_append, jsTrim_idem]

/-- `splitLines` never returns the empty list. -/
theorem splitLines_ne_nil (cs : List Char) : splitLines cs ≠ [] := by
  induction cs with
  | nil => simp [splitLines]
  | cons c cs ih =>
    by_cases h : c == '\n'
    · simp [splitLines, h]
    · simp only [splitLines, h, if_neg, Bool.false_eq_true, not_false_iff]
      cases hs : splitLines cs with
      | nil => simp
      | cons l ls => simp

/-- Pieces of `splitLines` contain no newline. -/
theorem splitLines_no_newline (cs : List Char) :
    ∀ l ∈ splitLines cs, ('\n' : Char) ∉ l := by
  induction cs with
  | nil => intro l hl; simp [splitLines] at hl; simp [hl]
  | cons c cs ih =>
    intro l hl
    by_cases h : c == '\n'
    · simp [splitLines, h] at hl
      rcases hl with rfl | hl
      · simp
      · exact ih l hl
    · simp only [splitLines, h, if_neg, Bool.false_eq_true, not_false_iff] at hl
      cases hs : splitLines cs with
      | nil => exact absurd hs (splitLines_ne_nil cs)
      | cons p ps =>
        rw [hs] at hl
        simp at hl
        rcases hl with rfl | hl
        · intro hmem
          rcases List.mem_cons.mp hmem with rfl | hmem
          · simp at h
          · exact ih p (by rw [hs]; exact List.mem_cons_self p ps) hmem
        · exact ih l (by rw [hs]; exact List.mem_cons_of_mem p hl)

/-- Splitting a single newline-free line gives back that line. -/
theorem splitLines_of_no_newline (l : List Char) (h : ('\n' : Char) ∉ l) :
    splitLines l = [l] := by
  induction l with
  | nil => simp [splitLines]
  | cons c cs ih =>
    have hc : (c == '\n') = false := by
      apply beq_eq_false_iff_ne.mpr
      intro hcc
      exact h (by simp [hcc])
    have hcs : ('\n' : Char) ∉ cs := fun hm => h (List.mem_cons_of_mem c hm)
    simp [splitLines, hc, ih hcs]

theorem splitLines_append_newline (l t : List Char) (h : ('\n' : Char) ∉ l) :
    splitLines (l ++ '\n' :: t) = l :: splitLines t := by
  induction l with
  | nil => simp [splitLines]
  | cons c cs ih =>
    have hc : (c == '\n') = false := by
      apply beq_eq_false_iff_ne.mpr
      intro hcc
      exact h (by simp [hcc])
    have hcs : ('\n' : Char) ∉ cs := fun hm => h (List.mem_cons_of_mem c hm)
    show splitLines (c :: (cs ++ '\n' :: t)) = (c :: cs) :: splitLines t
    simp only [splitLines, hc, Bool.false_eq_true, if_false]
    rw [show (cs ++ '\n' :: t) = cs ++ '\n' :: t from rfl, ih hcs]

/-- `splitLines` is a left inverse of `joinLines` on nonempty lists of
newline-free lines. -/
theorem splitLines_joinLines (ls : List (List Char)) (hne : ls ≠ [])
    (hnl : ∀ l ∈ ls, ('\n' : Char) ∉ l) :
    splitLines (joinLines ls) = ls := by
  induction ls with
  | nil => exact absurd rfl hne
  | cons l ls ih =>
    cases ls with
    | nil =>
      simp only [joinLines]
      exact splitLines_of_no_newline l (hnl l (List.mem_cons_self l []))
    | cons l' ls' =>
      have hstep : joinLines (l :: l' :: ls') = l ++ '\n' :: joinLines (l' :: ls') := rfl
      rw [hstep, splitLines_append_newline l _ (hnl l (List.mem_cons_self l _))]
      rw [ih (by simp) (fun x hx => hnl x (List.mem_cons_of_mem l hx))]

/-! ### Idempotence of the formatter -/

/-- `jsTrim` only keeps characters of its input. -/
theorem jsTrim_subset (l : List Char) : ∀ c ∈ jsTrim l, c ∈ l := by
  intro c hc
  unfold jsTrim trimL at hc
  rw [List.mem_reverse] at hc
  have h1 := (List.dropWhile_suffix (l := (l.dropWhile isJsSpace).reverse) isJsSpace).sublist.subset hc
  rw [List.mem_reverse] at h1
  exact (List.dropWhile_suffix (l := l) isJsSpace).sublist.subset h1

theorem formatLines_length (n : Nat) (ls : List (List Char)) :
    (formatLines n ls).length = ls.length := by
  induction ls generalizing n with
  | nil => simp [formatLines]
  | cons l rest ih =>
    by_cases h : (jsTrim l).isEmpty
    · simp [formatLines, h, ih]
    · simp [formatLines, h, ih]

theorem formatLines_no_newline (n : Nat) (ls : List (List Char))
    (hnl : ∀ l ∈ ls, ('\n' : Char) ∉ l) :
    ∀ l ∈ formatLines n ls, ('\n' : Char) ∉ l := by
  induction ls generalizing n with
  | nil => intro l hl; simp [formatLines] at hl
  | cons l rest ih =>
    intro x hx
    by_cases h : (jsTrim l).isEmpty
    · simp [formatLines, h] at hx
      rcases hx with rfl | hx
      · simp
      · exact ih n (fun y hy => hnl y (List.mem_cons_of_mem l hy)) x hx
    · simp only [formatLines, h, if_neg, Bool.false_eq_true, not_false_iff,
        List.mem_cons] at hx
      rcases hx with rfl | hx
      · intro hmem
        rcases List.mem_append.mp hmem with hrep | htrim
        · have := List.eq_of_mem_replicate hrep
          simp at this
        · exact hnl l (List.mem_cons_self l rest) (jsTrim_subset l _ htrim)
      · exact ih _ (fun y hy => hnl y (List.mem_cons_of_mem l hy)) x hx

/-- Re-running the formatter line loop over its own output changes
nothing: the second pass recovers exactly the same trimmed lines, hence
the same indentation decisions. -/
theorem formatLines_idem (n : Nat) (ls : List (List Char)) :
    formatLines n (formatLines n ls) = formatLines n ls := by
  induction ls generalizing n with
  | nil => simp [formatLines]
  | cons l rest ih =>
    by_cases h : (jsTrim l).isEmpty
    · have hnil : jsTrim ([] : List Char) = [] := rfl
      simp only [formatLines, h, if_pos]
      simp only [formatLines, hnil, List.isEmpty_nil, if_pos]
      rw [ih n]
    · simp only [formatLines, h, if_neg, Bool.false_eq_true, not_false_iff]
      have htrim : jsTrim (List.replicate
          (2 * (if startsWithCloser (jsTrim l) then n - 1 else n)) ' ' ++ jsTrim l)
          = jsTrim l := jsTrim_indented _ l
      simp only [formatLines, htrim, h, if_neg, Bool.false_eq_true, not_false_iff]
      rw [ih]

/-- **Claim C6.** Applying `formatCode` twice yields the same output as
applying it once.  This holds for every input string, hence in
particular for every input that is already correctly indented. -/
theorem claim_C6_format_idempotent (code : String) :
    formatCode (formatCode code) = formatCode code := by
  unfold formatCode
  have hdata : (String.mk (joinLines (formatLines 0 (splitLines code.data)))).data
      = joinLines (formatLines 0 (splitLines code.data)) := rfl
  rw [hdata]
  have hne : formatLines 0 (splitLines code.data) ≠ [] := by
    intro hcontra
    have hlen := formatLines_length 0 (splitLines code.data)
    rw [hcontra] at hlen
    have := splitLines_ne_nil code.data
    cases hs : splitLines code.data with
    | nil => exact this hs
    | cons a b => rw [hs] at hlen; simp at hlen
  have hnl : ∀ l ∈ formatLines 0 (splitLines code.data), ('\n' : Char) ∉ l :=
    formatLines_no_newline 0 _ (splitLines_no_newline code.data)
  rw [splitLines_joinLines _ hne hnl, formatLines_idem]

/-! ## A small backtracking regex engine

`analyzeCode` works by running four JavaScript regexes over the source
text.  The engine below implements the ECMAScript matching discipline
for the constructs those patterns use: ordered alternation, greedy
star/plus (with the ECMA empty-iteration cut), optional groups,
character classes, capture groups, and the `\b` word-boundary
assertion.  The matcher is written in continuation-passing style; the
`fuel` argument only bounds the nesting depth of matcher calls (one
unit per engine step), so with the generous `matchFuel` below it is not
observable for the fixed patterns of the source. -/

inductive Regex where
  | eps : Regex
  | cc (p : Char → Bool) : Regex
  | seq (a b : Regex) : Regex
  | alt (a b : Regex) : Regex
  | star (r : Regex) : Regex
  | group (i : Nat) (r : Regex) : Regex
  | bnd : Regex

/-- Captures recorded along the (successful) match path, most recent
first. -/
abbrev Caps := List (Nat × List Char)

def isWordOpt : Option Char → Bool
  | some c => isWordChar c
  | none => false

/-- ECMAScript `\b`: the word-ness of the previous character differs
from the word-ness of the next one. -/
def atBoundary (prev : Option Char) (cs : List Char) : Bool :=
  isWordOpt prev != isWordOpt cs.head?

def matchR : Nat → Regex → List Char → Option Char → Caps →
    (List Char → Option Char → Caps → Option (List Char × Option Char × Caps)) →
    Option (List Char × Option Char × Caps)
  | 0, _, _, _, _, _ => none
  | Nat.succ fuel, r, cs, prev, caps, k =>
    match r with
    | .eps => k cs prev caps
    | .bnd => if atBoundary prev cs then k cs prev caps else none
    | .cc p =>
      match cs with
      | [] => none
      | c :: cs' => if p c then k cs' (some c) caps else none
    | .seq a b =>
      matchR fuel a cs prev caps fun cs' p' caps' => matchR fuel b cs' p' caps' k
    | .alt a b =>
      match matchR fuel a cs prev caps k with
      | some res => some res
      | none => matchR fuel b cs prev caps k
    | .group i a =>
      matchR fuel a cs prev caps fun cs' p' caps' =>
        k cs' p' ((i, cs.take (cs.length - cs'.length)) :: caps')
    | .star a =>
      match matchR fuel a cs prev caps (fun cs' p' caps' =>
          if cs'.length < cs.length then matchR fuel (.star a) cs' p' caps' k
          else none) with
      | some res => some res
      | none => k cs prev caps

def Regex.size : Regex → Nat
  | .eps => 1
  | .bnd => 1
  | .cc _ => 1
  | .seq a b => a.size + b.size + 1
  | .alt a b => a.size + b.size + 1
  | .star r => r.size + 1
  | .group _ r => r.size + 1

/-- Depth budget for one match attempt; comfortably larger than the
maximal call nesting `size * (length + 1)` of the engine. -/
def matchFuel (r : Regex) (cs : List Char) : Nat := (r.size + 2) * (cs.length + 2)

/-- The source's `while ((match = re.exec(code)) !== null)` loop for a
`/g` regex: find the leftmost match at or after the current position,
record its captures, continue after the match.  (None of the patterns
in the source can match the empty string; the empty-match branch keeps
the function total.) -/
def execAll (r : Regex) : Nat → Option Char → List Char → List Caps
  | 0, _, _ => []
  | Nat.succ fuel, prev, cs =>
    match matchR (matchFuel r cs) r cs prev [] (fun cs' p' caps => some (cs', p', caps)) with
    | some (rest, p', caps) =>
      if rest.length < cs.length then
        caps :: execAll r fuel p' rest
      else
        match cs with
        | [] => [caps]
        | c :: cs' => caps :: execAll r fuel (some c) cs'
    | none =>
      match cs with
      | [] => []
      | c :: cs' => execAll r fuel (some c) cs'

def matchResults (r : Regex) (cs : List Char) : List Caps :=
  execAll r (cs.length + 1) none cs

def capGet (i : Nat) (caps : Caps) : Option (List Char) :=
  (caps.find? (fun x => x.1 == i)).map (fun x => x.2)

/-- JS `a || b` on possibly-undefined strings: `undefined` and `""` are
falsy. -/
def jsOrStr (a b : Option (List Char)) : Option (List Char) :=
  match a with
  | some s => if s.isEmpty then b else some s
  | none => b

/-! ### The four regex literals of `analyzeCode` (code-actions.ts 20–26)
plus the `VALUES` extraction regex of the pkg SQLite fallback
(cli.ts 472–474), hand-compiled into `Regex` values. -/

def rchar (c : Char) : Regex := .cc (fun d => d == c)

def rlit (s : String) : Regex :=
  s.data.foldr (fun c r => .seq (rchar c) r) .eps

/-- Case-insensitive literal (for the `/i` flag). -/
def rlitCI (s : String) : Regex :=
  s.data.foldr (fun c r => .seq (.cc (fun d => d.toLower == c.toLower)) r) .eps

def rplus (r : Regex) : Regex := .seq r (.star r)

def ropt (r : Regex) : Regex := .alt r .eps

/-- `\w+` -/
def wplus : Regex := rplus (.cc isWordChar)

/-- `\s+` -/
def splus : Regex := rplus (.cc isJsSpace)

/-- `\s*` -/
def sstar : Regex := .star (.cc isJsSpace)

/-- `['"]` (and the fallback's `['"']`, the same two-character class). -/
def isQuoteChar (c : Char) : Bool := c == '"' || c.toNat == 39

/-- `([^'"]+)` body -/
def nqplus : Regex := rplus (.cc (fun c => !(isQuoteChar c)))

/-- `\([^)]*\)` -/
def parenGroup : Regex :=
  .seq (rchar '(') (.seq (.star (.cc (fun c => !(c == ')')))) (rchar ')'))

/-- `(?:async\s+)?` -/
def optAsync : Regex := ropt (.seq (rlit "async") splus)

/-- `(?:const|let|var)` -/
def cvl : Regex := .alt (rlit "const") (.alt (rlit "let") (rlit "var"))

/-- `/(?:function\s+(\w+)|(\w+)\s*:\s*(?:async\s+)?(?:\([^)]*\)\s*=>|\([^)]*\)\s*{)|(?:async\s+)?(\w+)\s*\([^)]*\)\s*{|(?:const|let|var)\s+(\w+)\s*=\s*(?:async\s+)?\([^)]*\)\s*=>)/g` -/
def functionRegex : Regex :=
  .alt (.seq (rlit "function") (.seq splus (.group 1 wplus)))
    (.alt
      (.seq (.group 2 wplus) (.seq sstar (.seq (rchar ':') (.seq sstar (.seq optAsync
        (.alt (.seq parenGroup (.seq sstar (rlit "=>")))
              (.seq parenGroup (.seq sstar (rchar '{')))))))))
      (.alt
        (.seq optAsync (.seq (.group 3 wplus)
          (.seq sstar (.seq parenGroup (.seq sstar (rchar '{'))))))
        (.seq cvl (.seq splus (.seq (.group 4 wplus) (.seq sstar (.seq (rchar '=')
          (.seq sstar (.seq optAsync (.seq parenGroup (.seq sstar (rlit "=>"))))))))))))

/-- `/class\s+(\w+)/g` -/
def classRegex : Regex := .seq (rlit "class") (.seq splus (.group 1 wplus))

/-- `/(?:const|let|var)\s+(\w+)/g` -/
def variableRegex : Regex := .seq cvl (.seq splus (.group 1 wplus))

/-- `/(?:import.*from\s+['"]([^'"]+)['"]|require\(['"]([^'"]+)['"]\))/g` -/
def importRegex : Regex :=
  .alt
    (.seq (rlit "import") (.seq (.star (.cc (fun c => !(c == '\n'))))
      (.seq (rlit "from") (.seq splus (.seq (.cc isQuoteChar)
        (.seq (.group 1 nqplus) (.cc isQuoteChar)))))))
    (.seq (rlit "require") (.seq (rchar '(') (.seq (.cc isQuoteChar)
      (.seq (.group 2 nqplus) (.seq (.cc isQuoteChar) (rchar ')'))))))

/-- `/\b(if|else|while|for|switch|case|catch|&&|\|\||\?)\b/g` -/
def complexityRegex : Regex :=
  .seq .bnd (.seq (.group 1
    (.alt (rlit "if") (.alt (rlit "else") (.alt (rlit "while") (.alt (rlit "for")
      (.alt (rlit "switch") (.alt (rlit "case") (.alt (rlit "catch")
        (.alt (rlit "&&") (.alt (rlit "||") (rlit "?"))))))))))) .bnd)

/-- `/VALUES\s*\(\s*['"']([^'"']+)['"']\s*\)/i` (cli.ts 472–474). -/
def valuesRegex : Regex :=
  .seq (rlitCI "VALUES") (.seq sstar (.seq (rchar '(') (.seq sstar (.seq (.cc isQuoteChar)
    (.seq (.group 1 nqplus) (.seq (.cc isQuoteChar) (.seq sstar (rchar ')'))))))))

/-! ## `analyzeCode` (core/src/utils/code-actions.ts, lines 10–78) -/

structure CodeAnalysisResult where
  fileName : String
  functions : List String
  classes : List String
  «variables» : List String
  dependencies : List String
  complexity : Nat
  lines : Nat
deriving DecidableEq

def analyzeCode (code fileName : String) : CodeAnalysisResult :=
  let cs := code.data
  let functions := (matchResults functionRegex cs).foldl
    (fun acc caps =>
      match jsOrStr (jsOrStr (jsOrStr (capGet 1 caps) (capGet 2 caps)) (capGet 3 caps))
          (capGet 4 caps) with
      | some n =>
        let s := String.mk n
        if acc.contains s then acc else acc ++ [s]
      | none => acc) []
  let classes := (matchResults classRegex cs).foldl
    (fun acc caps =>
      match capGet 1 caps with
      | some n =>
        if n.isEmpty then acc
        else
          let s := String.mk n
          if acc.contains s then acc else acc ++ [s]
      | none => acc) []
  let vars := (matchResults variableRegex cs).foldl
    (fun acc caps =>
      match capGet 1 caps with
      | some n =>
        if n.isEmpty then acc
        else
          let s := String.mk n
          if functions.contains s || acc.contains s then acc else acc ++ [s]
      | none => acc) []
  let dependencies := (matchResults importRegex cs).foldl
    (fun acc caps =>
      match jsOrStr (capGet 1 caps) (capGet 2 caps) with
      | some n =>
        if n.isEmpty then acc
        else
          let s := String.mk n
          if acc.contains s then acc else acc ++ [s]
      | none => acc) []
  { fileName := fileName
    functions := functions
    classes := classes
    «variables» := vars
    dependencies := dependencies
    complexity := max 1 (matchResults complexityRegex cs).length
    lines := (splitLines cs).length }

/-! ## HTTP `/analyze` handler (unnamed/part_012, lines 353–408) -/

/-- JS truthiness of a possibly-absent string: `undefined` and `""` are
falsy. -/
def jsTruthyOpt : Option String → Bool
  | some s => !(s == "")
  | none => false

/-- Node `path.basename` for the plain slash-separated paths the server
meets: the segment after the last `'/'`. -/
def basename (p : String) : String :=
  String.mk (p.data.foldl (fun acc c => if c == '/' then [] else acc ++ [c]) [])

structure AnalyzeReq where
  code : Option String
  filePath : Option String

inductive AnalyzeResp where
  | okA (result : CodeAnalysisResult)
  | errA (status : Nat)
deriving DecidableEq

/-- `HttpServer.handleAnalyzeRequest`: prefer inline `code` (file name
`"unknown"` unless `filePath` is also given), otherwise read `filePath`
from the file system (`404` when missing), otherwise `400`. -/
def handleAnalyzeRequest (fsys : String → Option String) (req : AnalyzeReq) : AnalyzeResp :=
  if jsTruthyOpt req.code then
    let fileName := if jsTruthyOpt req.filePath then basename (req.filePath.getD "") else "unknown"
    .okA (analyzeCode (req.code.getD "") fileName)
  else if jsTruthyOpt req.filePath then
    match fsys (req.filePath.getD "") with
    | some content => .okA (analyzeCode content (basename (req.filePath.getD "")))
    | none => .errA 404
  else .errA 400

/-- The request body of the spec's end-to-end scenario C. -/
def analyzeScenarioInput : String := "function f()\x7b\x7d\nclass C\x7b\x7d\nconst x=1;"

/-- **Claim C1.** For the input code `"function f(){}\nclass C{}\nconst x=1;"`,
the analyze operation (`analyzeCode` as served by `POST /analyze`)
returns a result whose functions list is `["f"]`, whose classes list is
`["C"]`, and whose variables list is `["x"]`. -/
theorem claim_C1_analyze_scenario :
    handleAnalyzeRequest (fun _ => none) ⟨some analyzeScenarioInput, none⟩
      = .okA (analyzeCode analyzeScenarioInput "unknown") ∧
    (analyzeCode analyzeScenarioInput "unknown").functions = ["f"] ∧
    (analyzeCode analyzeScenarioInput "unknown").classes = ["C"] ∧
    (analyzeCode analyzeScenarioInput "unknown").«variables» = ["x"] := by
  refine ⟨rfl, by decide, by decide, by decide⟩

/-! ## The in-memory storage layer (core/src/cli.ts, DatabaseManager chunk)

In a pkg-bundled binary `loadNativeSqlite3` never uses the native
constructor ("Skipping native constructor to avoid crashes, using pure
fallback", cli.ts 317–320): every database handle is the pure fallback
whose `run`/`all`/`get` methods operate on the `GlobalStorage`
singleton.  That fallback is the storage layer embedded here. -/

structure Item where
  id : Nat
  name : String
  created_at : String
deriving DecidableEq

/-- `GlobalStorage` (cli.ts 78–124): shared in-memory item table plus the
`nextId` counter. -/
structure GlobalStorage where
  items : List Item
  nextId : Nat
deriving DecidableEq

/-- The freshly constructed singleton: `data = {items: []}`, `nextId = 1`. -/
def GlobalStorage.start : GlobalStorage := ⟨[], 1⟩

def GlobalStorage.getItems (s : GlobalStorage) : List Item := s.items

/-- `addItem(name, created_at?)`: assigns `nextId++`. -/
def GlobalStorage.addItem (s : GlobalStorage) (name created_at : String) :
    Item × GlobalStorage :=
  let newItem : Item := ⟨s.nextId, name, created_at⟩
  (newItem, ⟨s.items ++ [newItem], s.nextId + 1⟩)

/-- `clearItems()`: empties the table, returns the old count, leaves
`nextId` untouched. -/
def GlobalStorage.clearItems (s : GlobalStorage) : Nat × GlobalStorage :=
  (s.items.length, ⟨[], s.nextId⟩)

/-- `reset()`: the only operation that rewinds `nextId` to 1 (invoked by
the fallback for `DROP TABLE IF EXISTS items`). -/
def GlobalStorage.reset (_s : GlobalStorage) : GlobalStorage := ⟨[], 1⟩

/-- JS `String.prototype.includes` on character lists. -/
def isPrefixL : List Char → List Char → Bool
  | [], _ => true
  | _ :: _, [] => false
  | a :: as, b :: bs => a == b && isPrefixL as bs

def containsSub : List Char → List Char → Bool
  | hay, sub =>
    isPrefixL sub hay ||
      match hay with
      | [] => false
      | _ :: t => containsSub t sub

/-- `sql.includes(pat)`. -/
def sIncludes (s pat : String) : Bool := containsSub s.data pat.data

/-- The `this` context the fallback passes to a `run` callback. -/
structure RunCtx where
  lastID : Nat
  changes : Nat
deriving DecidableEq

/-- `nameMatch` for the INSERT branch (cli.ts 469–474): first positional
parameter if any, otherwise the `VALUES ('...')` regex capture. -/
def insertNameMatch (sql : String) (params : List String) : Option String :=
  match params.head? with
  | some p => some p
  | none =>
    match (matchResults valuesRegex sql.data).head? with
    | some caps => (capGet 1 caps).map String.mk
    | none => none

/-- The pkg fallback `db.run` (cli.ts 435–537).  Returns `none` when the
source never invokes the callback (the `DELETE` branch whose SQL matches
neither inner pattern); otherwise the callback context, the error passed
to the callback (always `null` — the catch-arm is unreachable for these
total branch bodies), and the updated storage. -/
def fallbackRun (st : GlobalStorage) (sql : String) (params : List String) :
    Option (RunCtx × Option String × GlobalStorage) :=
  if sIncludes sql "CREATE TABLE" || sIncludes sql "DROP TABLE" then
    let st' := if sIncludes sql "DROP TABLE IF EXISTS items" then st.reset else st
    some (⟨0, 0⟩, none, st')
  else if sIncludes sql "INSERT INTO items" then
    match insertNameMatch sql params with
    | some n =>
      if n == "" then some (⟨0, 0⟩, none, st)
      else
        let (it, st') := st.addItem n "CURRENT_TIMESTAMP"
        some (⟨it.id, 1⟩, none, st')
    | none => some (⟨0, 0⟩, none, st)
  else if sIncludes sql "UPDATE" then
    some (⟨0, 1⟩, none, st)
  else if sIncludes sql "DELETE" then
    if sIncludes sql "DELETE FROM items WHERE" then
      some (⟨0, 1⟩, none, st)
    else if sIncludes sql "DELETE FROM items" then
      let (cnt, st') := st.clearItems
      some (⟨0, cnt⟩, none, st')
    else none
  else
    some (⟨0, 0⟩, none, st)

/-- The pkg fallback `db.all` (cli.ts 540–564): a `SELECT … items` query
returns the global items, anything else the empty list; the error is
always `null`. -/
def fallbackAll (st : GlobalStorage) (sql : String) : Option String × List Item :=
  if sIncludes sql "SELECT" && sIncludes sql "items" then (none, st.getItems)
  else (none, [])

/-! ## `DatabaseManager` operations over the fallback (cli.ts 690–985) -/

/-- Outcome printed by `DatabaseManager.updateItem`'s callback:
error, `changes > 0` ("updated successfully"), or zero changes
("No item found"). -/
inductive DbRunOutcome where
  | errorOut (msg : String)
  | updatedOut
  | notFoundOut
deriving DecidableEq

/-- JS `name.trim()` on a Lean `String`. -/
def jsTrimStr (s : String) : String := String.mk (jsTrim s.data)

def DatabaseManager.updateItem (st : GlobalStorage) (itemId newName : String) :
    Option (DbRunOutcome × GlobalStorage) :=
  (fallbackRun st "UPDATE items SET name = ? WHERE id = ?" [newName, itemId]).map
    fun r =>
      match r with
      | (ctx, err, st') =>
        match err with
        | some m => (.errorOut m, st')
        | none => if ctx.changes > 0 then (.updatedOut, st') else (.notFoundOut, st')

def DatabaseManager.clearItems (st : GlobalStorage) :
    Option (Option String × Nat × GlobalStorage) :=
  (fallbackRun st "DELETE FROM items" []).map
    fun r =>
      match r with
      | (ctx, err, st') => (err, ctx.changes, st')

def DatabaseManager.listItems (st : GlobalStorage) : Option String × List Item :=
  fallbackAll st "SELECT * FROM items ORDER BY id"

def DatabaseManager.addItem (st : GlobalStorage) (itemName : String) :
    Option (RunCtx × Option String × GlobalStorage) :=
  fallbackRun st "INSERT INTO items (name) VALUES (?)" [itemName]

/-! ## HTTP database handlers (unnamed/part_012, lines 176–348) -/

inductive DbResp where
  | okJson (msg : String)
  | errStatus (status : Nat)
deriving DecidableEq

/-- Truthiness of `name?.trim()`. -/
def truthyTrim : Option String → Bool
  | some s => !(jsTrim s.data).isEmpty
  | none => false

/-- `HttpServer.handleUpdateItem` (part_012, 292–310): `400` when id or
trimmed name is falsy, otherwise run the storage update and always
answer `{success:true, message:"Item updated"}`. -/
def handleUpdateItem (st : GlobalStorage) (id name : Option String) :
    DbResp × GlobalStorage :=
  if !(jsTruthyOpt id) || !(truthyTrim name) then (.errStatus 400, st)
  else
    match DatabaseManager.updateItem st (id.getD "") (jsTrimStr (name.getD "")) with
    | some (_, st') => (.okJson "Item updated", st')
    | none => (.errStatus 500, st)  -- unreachable: the UPDATE branch always calls back

/-- `HttpServer.handleDatabaseClear` (part_012, 315–348). -/
def handleDatabaseClear (st : GlobalStorage) : DbResp × GlobalStorage :=
  match DatabaseManager.clearItems st with
  | some (_, _, st') => (.okJson "Database cleared", st')
  | none => (.errStatus 500, st)  -- unreachable: the clear branch always calls back

/-- **Claim C3, counterexample.** On the empty storage (no id is
present), the update path reports the `changes > 0` "updated
successfully" outcome — not the zero-rows-affected/not-found outcome the
claim asserts — because the pkg fallback `db.run` answers every `UPDATE`
with `changes: 1` (cli.ts 495–500). -/
theorem claim_C3_counterexample :
    GlobalStorage.start.items = [] ∧
    DatabaseManager.updateItem GlobalStorage.start "1" "renamed"
      = some (.updatedOut, GlobalStorage.start) := by
  constructor
  · rfl
  · rfl

/-- **Claim C3, amended.** For every id (present or not) and name, the
update operation leaves the items collection unchanged and completes
without raising an error; however the fallback storage layer reports one
changed row, so `DatabaseManager.updateItem` takes its "updated
successfully" branch and the HTTP `{action:"update"}` path replies
success — never a zero-rows/not-found outcome. -/
theorem claim_C3_update_nonexistent (st : GlobalStorage) (id name : String)
    (hid : id ≠ "") (hname : (jsTrim name.data).isEmpty = false) :
    DatabaseManager.updateItem st id name = some (.updatedOut, st) ∧
    handleUpdateItem st (some id) (some name) = (.okJson "Item updated", st) := by
  constructor
  · rfl
  · have h1 : jsTruthyOpt (some id) = true := by
      simp [jsTruthyOpt, hid]
    have h2 : truthyTrim (some name) = true := by
      simp [truthyTrim, hname]
    simp [handleUpdateItem, h1, h2, DatabaseManager.updateItem]
    rfl

theorem claim_C3_witness :
    DatabaseManager.updateItem GlobalStorage.start "7" "x"
        = some (.updatedOut, GlobalStorage.start) ∧
    handleUpdateItem GlobalStorage.start (some "7") (some "x")
        = (.okJson "Item updated", GlobalStorage.start) :=
  claim_C3_update_nonexistent GlobalStorage.start "7" "x" (by decide) (by decide)

/-- **Claim C7.** For every prior state of the items storage, executing
`clear()` and then `list()` returns an empty collection — at the
`GlobalStorage` level, at the `DatabaseManager` level, and through the
HTTP `/database/clear` handler. -/
theorem claim_C7_clear_then_list (st : GlobalStorage) :
    (GlobalStorage.clearItems st).2.getItems = [] ∧
    DatabaseManager.clearItems st = some (none, st.items.length, ⟨[], st.nextId⟩) ∧
    handleDatabaseClear st = (.okJson "Database cleared", ⟨[], st.nextId⟩) ∧
    DatabaseManager.listItems ⟨[], st.nextId⟩ = (none, []) := by
  refine ⟨rfl, rfl, rfl, rfl⟩

/-! ## Claim C9: id assignment across storage operation sequences -/

/-- The storage operations a client can drive without a full reset:
`addItem` and `clearItems`. -/
inductive SOp where
  | addOp (name created : String)
  | clearOp

/-- Run a sequence of storage operations, collecting the ids assigned by
each `addItem`. -/
def runOps : GlobalStorage → List SOp → GlobalStorage × List Nat
  | st, [] => (st, [])
  | st, .addOp n c :: t =>
    let (it, st') := st.addItem n c
    let (stf, ids) := runOps st' t
    (stf, it.id :: ids)
  | st, .clearOp :: t => runOps (st.clearItems).2 t

def countAdds : List SOp → Nat
  | [] => 0
  | .addOp _ _ :: t => countAdds t + 1
  | .clearOp :: t => countAdds t

theorem runOps_ids (st : GlobalStorage) (ops : List SOp) :
    (runOps st ops).2 = List.range' st.nextId (countAdds ops) ∧
    (runOps st ops).1.nextId = st.nextId + countAdds ops := by
  induction ops generalizing st with
  | nil => simp [runOps, countAdds, List.range']
  | cons op t ih =>
    cases op with
    | addOp n c =>
      have h := ih ⟨st.items ++ [⟨st.nextId, n, c⟩], st.nextId + 1⟩
      refine ⟨?_, ?_⟩
      · simp only [runOps, GlobalStorage.addItem, countAdds]
        rw [List.range'_succ]
        simp only at h
        rw [h.1]
      · simp only [runOps, GlobalStorage.addItem, countAdds]
        simp only at h
        rw [h.2]
        omega
    | clearOp =>
      have h := ih ⟨[], st.nextId⟩
      refine ⟨?_, ?_⟩
      · simp only [runOps, GlobalStorage.clearItems, countAdds]
        exact h.1
      · simp only [runOps, GlobalStorage.clearItems, countAdds]
        exact h.2

theorem chain_lt_range' (n : Nat) : ∀ s : Nat, List.Chain' (· < ·) (List.range' s n) := by
  induction n with
  | zero => intro s; simp [List.range']
  | succ n ih =>
    intro s
    rw [List.range'_succ]
    cases n with
    | zero => simp [List.range']
    | succ m =>
      rw [List.range'_succ]
      exact List.Chain'.cons (by omega) (by rw [← List.range'_succ]; exact ih (s + 1))

theorem range'_lower_bound (n : Nat) : ∀ s : Nat, ∀ i ∈ List.range' s n, s ≤ i := by
  induction n with
  | zero => intro s i hi; simp [List.range'] at hi
  | succ n ih =>
    intro s i hi
    rw [List.range'_succ] at hi
    rcases List.mem_cons.mp hi with rfl | hi
    · exact Nat.le_refl _
    · exact Nat.le_trans (Nat.le_succ _) (ih (s + 1) i hi)

/-- **Claim C9.** Along any sequence of storage operations, the ids the
storage layer assigns are the consecutive block starting at the current
`nextId` — hence strictly increasing, and never below any id assigned
before the sequence began; `clearItems` preserves `nextId` (so clearing
causes no id reuse), and only the full `reset` rewinds `nextId` to 1. -/
theorem claim_C9_monotone_ids (st : GlobalStorage) (ops : List SOp) :
    (runOps st ops).2 = List.range' st.nextId (countAdds ops) ∧
    List.Chain' (· < ·) (runOps st ops).2 ∧
    (∀ i ∈ (runOps st ops).2, st.nextId ≤ i) ∧
    (GlobalStorage.clearItems st).2.nextId = st.nextId ∧
    (GlobalStorage.reset st).nextId = 1 := by
  obtain ⟨h1, -⟩ := runOps_ids st ops
  refine ⟨h1, ?_, ?_, rfl, rfl⟩
  · rw [h1]; exact chain_lt_range' _ _
  · rw [h1]; exact range'_lower_bound _ _

/-! ## The `home` CLI subcommand dispatch
(core/src/commands/HomeCommand.ts, lines 15–83)

`HomeCommand.handle` checks the flags with `args.includes(...)` in a
fixed if/else-if order; a flag found by `includes` is also found by
`indexOf`, so the source's `itemIndex !== -1` re-check is always true
and is dropped here.  Success paths let the Node process drain and exit
with code 0; validation failures call `process.exit(1)`. -/

inductive HomeAction where
  | initDb
  | listAction
  | addAction (name : String)
  | removeAction (id : String)
  | updateAction (id name : String)
  | clearAction
  | infoAction
  | usageError
deriving DecidableEq

/-- JS truthiness of `args[i]`. -/
def argTruthy (args : List String) (i : Nat) : Bool :=
  match args.get? i with
  | some s => !(s == "")
  | none => false

def homeHandle (args : List String) : HomeAction × Nat :=
  if args.contains "--init" then (.initDb, 0)
  else if args.contains "--list" then (.listAction, 0)
  else if args.contains "--add" then
    let idx := args.indexOf "--add"
    if argTruthy args (idx + 1) then (.addAction (args.getD (idx + 1) ""), 0)
    else (.usageError, 1)
  else if args.contains "--remove" then
    let idx := args.indexOf "--remove"
    if argTruthy args (idx + 1) then (.removeAction (args.getD (idx + 1) ""), 0)
    else (.usageError, 1)
  else if args.contains "--update" then
    let idx := args.indexOf "--update"
    if argTruthy args (idx + 1) && argTruthy args (idx + 2) then
      (.updateAction (args.getD (idx + 1) "") (args.getD (idx + 2) ""), 0)
    else (.usageError, 1)
  else if args.contains "--clear" then (.clearAction, 0)
  else (.infoAction, 0)

/-- The six flags of the `home` subcommand. -/
def homeFlags : List String :=
  ["--init", "--list", "--add", "--remove", "--update", "--clear"]

/-- **Claim C8.** The CLI `home` command accepts `--init`, `--list`,
`--add <name>`, `--remove <id>`, `--update <id> <name>` and `--clear`,
dispatching the corresponding storage operation with exit code 0, and
exits with code 1 on a validation error such as a flag missing its
required argument.  (The argument-value hypotheses keep the payload from
colliding with a flag, which the `includes`-based dispatch would pick up
first.) -/
theorem claim_C8_home_dispatch :
    homeHandle ["--init"] = (.initDb, 0) ∧
    homeHandle ["--list"] = (.listAction, 0) ∧
    homeHandle ["--clear"] = (.clearAction, 0) ∧
    (∀ n : String, n ≠ "" → n ∉ homeFlags →
      homeHandle ["--add", n] = (.addAction n, 0)) ∧
    homeHandle ["--add"] = (.usageError, 1) ∧
    (∀ i : String, i ≠ "" → i ∉ homeFlags →
      homeHandle ["--remove", i] = (.removeAction i, 0)) ∧
    homeHandle ["--remove"] = (.usageError, 1) ∧
    (∀ i n : String, i ≠ "" → n ≠ "" → i ∉ homeFlags → n ∉ homeFlags →
      homeHandle ["--update", i, n] = (.updateAction i n, 0)) ∧
    (∀ i : String, i ∉ homeFlags → homeHandle ["--update", i] = (.usageError, 1)) ∧
    homeHandle ["--update"] = (.usageError, 1) := by
  refine ⟨rfl, rfl, rfl, ?_, rfl, ?_, rfl, ?_, ?_, rfl⟩
  · intro n hn hfl
    simp only [homeFlags, List.mem_cons, List.not_mem_nil, or_false, not_or] at hfl
    obtain ⟨h1, h2, h3, h4, h5, h6⟩ := hfl
    simp [homeHandle, argTruthy, List.contains, List.elem, List.indexOf,
      List.findIdx, List.findIdx.go, beq_eq_false_iff_ne.mpr (Ne.symm h1),
      beq_eq_false_iff_ne.mpr (Ne.symm h2), beq_eq_false_iff_ne.mpr (Ne.symm h3),
      beq_eq_false_iff_ne.mpr (Ne.symm h4), beq_eq_false_iff_ne.mpr (Ne.symm h5),
      beq_eq_false_iff_ne.mpr (Ne.symm h6), beq_eq_false_iff_ne.mpr hn]
  · intro i hi hfl
    simp only [homeFlags, List.mem_cons, List.not_mem_nil, or_false, not_or] at hfl
    obtain ⟨h1, h2, h3, h4, h5, h6⟩ := hfl
    simp [homeHandle, argTruthy, List.contains, List.elem, List.indexOf,
      List.findIdx, List.findIdx.go, beq_eq_false_iff_ne.mpr (Ne.symm h1),
      beq_eq_false_iff_ne.mpr (Ne.symm h2), beq_eq_false_iff_ne.mpr (Ne.symm h3),
      beq_eq_false_iff_ne.mpr (Ne.symm h4), beq_eq_false_iff_ne.mpr (Ne.symm h5),
      beq_eq_false_iff_ne.mpr (Ne.symm h6), beq_eq_false_iff_ne.mpr hi]
  · intro i n hi hn hifl hnfl
    simp only [homeFlags, List.mem_cons, List.not_mem_nil, or_false, not_or] at hifl hnfl
    obtain ⟨h1, h2, h3, h4, h5, h6⟩ := hifl
    obtain ⟨g1, g2, g3, g4, g5, g6⟩ := hnfl
    simp [homeHandle, argTruthy, List.contains, List.elem, List.indexOf,
      List.findIdx, List.findIdx.go, beq_eq_false_iff_ne.mpr (Ne.symm h1),
      beq_eq_false_iff_ne.mpr (Ne.symm h2), beq_eq_false_iff_ne.mpr (Ne.symm h3),
      beq_eq_false_iff_ne.mpr (Ne.symm h4), beq_eq_false_iff_ne.mpr (Ne.symm h5),
      beq_eq_false_iff_ne.mpr (Ne.symm h6), beq_eq_false_iff_ne.mpr (Ne.symm g1),
      beq_eq_false_iff_ne.mpr (Ne.symm g2), beq_eq_false_iff_ne.mpr (Ne.symm g3),
      beq_eq_false_iff_ne.mpr (Ne.symm g4), beq_eq_false_iff_ne.mpr (Ne.symm g5),
      beq_eq_false_iff_ne.mpr (Ne.symm g6), beq_eq_false_iff_ne.mpr hi,
      beq_eq_false_iff_ne.mpr hn]
  · intro i hfl
    simp only [homeFlags, List.mem_cons, List.not_mem_nil, or_false, not_or] at hfl
    obtain ⟨h1, h2, h3, h4, h5, h6⟩ := hfl
    simp [homeHandle, argTruthy, List.contains, List.elem, List.indexOf,
      List.findIdx, List.findIdx.go, beq_eq_false_iff_ne.mpr (Ne.symm h1),
      beq_eq_false_iff_ne.mpr (Ne.symm h2), beq_eq_false_iff_ne.mpr (Ne.symm h3),
      beq_eq_false_iff_ne.mpr (Ne.symm h4), beq_eq_false_iff_ne.mpr (Ne.symm h5),
      beq_eq_false_iff_ne.mpr (Ne.symm h6)]

theorem claim_C8_witness :
    homeHandle ["--add", "Task 1"] = (.addAction "Task 1", 0) ∧
    homeHandle ["--remove", "3"] = (.removeAction "3", 0) ∧
    homeHandle ["--update", "3", "Renamed"] = (.updateAction "3" "Renamed", 0) ∧
    homeHandle ["--update", "3"] = (.usageError, 1) :=
  ⟨(claim_C8_home_dispatch.2.2.2.1) "Task 1" (by decide) (by decide),
   (claim_C8_home_dispatch.2.2.2.2.2.1) "3" (by decide) (by decide),
   (claim_C8_home_dispatch.2.2.2.2.2.2.2.1) "3" "Renamed" (by decide) (by decide)
     (by decide) (by decide),
   (claim_C8_home_dispatch.2.2.2.2.2.2.2.2.1) "3" (by decide)⟩

/-! ## The Request Gateway (unnamed/part_007, `DatabaseService.makeRequest`,
lines 134–174)

`makeRequest` runs a `while (retries > 0)` loop starting at
`retries = 2`.  Each iteration awaits `ensureServerRunning()` and then
one `fetch`; the fetch either fails at connection level (in Node a
`TypeError` whose message contains `"fetch"` — refused/reset
connections), returns an HTTP response, times out (the
`AbortSignal.timeout(10000)` signal firing rejects the fetch with a
`TimeoutError` `DOMException`, which is *not* a `TypeError` and whose
message does not contain `"fetch"`), or throws some other error.  Only
the connection-level `TypeError` passes the retry test at
part_007:160; every other error is rethrown at once.  The ensure-ready
step is abstracted as a state transformer `ensure` (its own logic is
embedded separately for claim C5); the i-th fetch outcome comes from
the oracle `oracle i`. -/

inductive ServerStatus where
  | unknown
  | running
  | starting
  | failed
deriving DecidableEq

structure GwState where
  serverStatus : ServerStatus
  lastHealthCheck : Nat
deriving DecidableEq

inductive FetchOutcome where
  | connError
  | httpResp (status : Nat) (body : String)
  | fetchTimeout
  | otherError (msg : String)
deriving DecidableEq

inductive ReqResult where
  | okJson (body : String)
  | netError
  | appError (status : Nat) (body : String)
  | timeoutFail
  | otherFail (msg : String)
  | loopExit
deriving DecidableEq

inductive GEvent where
  | ensureEv
  | attemptEv (o : FetchOutcome)
deriving DecidableEq

/-- `this.serverStatus = "failed"; this.lastHealthCheck = 0;` — the
cache invalidation performed on a connection-level failure. -/
def invalidate (_st : GwState) : GwState := ⟨.failed, 0⟩

def makeRequestLoop (ensure : GwState → GwState) (oracle : Nat → FetchOutcome) :
    Nat → Nat → GwState → List GEvent × ReqResult × GwState
  | 0, _, st => ([], .loopExit, st)
  | Nat.succ retries1, idx, st =>
    let st1 := ensure st
    match oracle idx with
    | .httpResp s b =>
      if 200 ≤ s ∧ s < 300 then
        ([.ensureEv, .attemptEv (.httpResp s b)], .okJson b, st1)
      else
        -- `throw new Error(...)` with the status and body; the catch arm
        -- decrements `retries` but rethrows at once (not a TypeError).
        ([.ensureEv, .attemptEv (.httpResp s b)], .appError s b, st1)
    | .connError =>
      let st2 := invalidate st1
      if retries1 > 0 then
        let r := makeRequestLoop ensure oracle retries1 (idx + 1) st2
        (.ensureEv :: .attemptEv .connError :: r.1, r.2.1, r.2.2)
      else
        ([.ensureEv, .attemptEv .connError], .netError, st2)
    | .fetchTimeout =>
      -- the TimeoutError DOMException fails the
      -- `error instanceof TypeError && error.message.includes("fetch")`
      -- test, so the catch arm rethrows it at once: no invalidation,
      -- no retry.
      ([.ensureEv, .attemptEv .fetchTimeout], .timeoutFail, st1)
    | .otherError m =>
      ([.ensureEv, .attemptEv (.otherError m)], .otherFail m, st1)

/-- `makeRequest`: the loop entered with `retries = 2`. -/
def makeRequest (ensure : GwState → GwState) (oracle : Nat → FetchOutcome)
    (st : GwState) : List GEvent × ReqResult × GwState :=
  makeRequestLoop ensure oracle 2 0 st

/-- **Claim C2, counterexample.** The claim classifies a request
timeout as a connection-level failure that is invalidated and retried
once; the code does not: an `AbortSignal.timeout` rejection is a
`TimeoutError` `DOMException`, which fails the
`error instanceof TypeError && error.message.includes("fetch")` test,
so `makeRequest` surfaces it after exactly one attempt, with the cached
server state left untouched (status still `running`, freshness stamp
unchanged) and the ensure-ready step not re-run. -/
theorem claim_C2_counterexample :
    makeRequest (fun s => s) (fun _ => .fetchTimeout) ⟨.running, 7⟩
      = ([.ensureEv, .attemptEv .fetchTimeout], .timeoutFail, ⟨.running, 7⟩) ∧
    (makeRequest (fun s => s) (fun _ => .fetchTimeout) ⟨.running, 7⟩).2.2.serverStatus
      ≠ .failed ∧
    ((makeRequest (fun s => s) (fun _ => .fetchTimeout) ⟨.running, 7⟩).1.filter
      (fun e => match e with | .attemptEv _ => true | _ => false)).length = 1 := by
  refine ⟨rfl, by decide, by decide⟩

/-- **Claim C2, amended.** Through the Request Gateway: a
connection-level fetch failure (the `TypeError` Node throws for
refused/reset connections) invalidates the cached server state, re-runs
the ensure-ready step, and retries exactly once — a second connection
failure surfaces as the network error after exactly two attempts, while
a retried call that succeeds returns its body; a non-2xx HTTP response
is never retried and surfaces immediately as an application error
carrying the status code and response body; a request timeout is *not*
treated as connection-level: it surfaces immediately after a single
attempt, without invalidation and without retry. -/
theorem claim_C2_gateway_retry (ensure : GwState → GwState)
    (oracle : Nat → FetchOutcome) (st : GwState) :
    (oracle 0 = .connError → oracle 1 = .connError →
      makeRequest ensure oracle st =
        ([.ensureEv, .attemptEv .connError, .ensureEv, .attemptEv .connError],
          .netError, invalidate (ensure (invalidate (ensure st))))) ∧
    (∀ b : String, oracle 0 = .connError → oracle 1 = .httpResp 200 b →
      makeRequest ensure oracle st =
        ([.ensureEv, .attemptEv .connError, .ensureEv, .attemptEv (.httpResp 200 b)],
          .okJson b, ensure (invalidate (ensure st)))) ∧
    (∀ (s : Nat) (b : String), oracle 0 = .httpResp s b → ¬(200 ≤ s ∧ s < 300) →
      makeRequest ensure oracle st =
        ([.ensureEv, .attemptEv (.httpResp s b)], .appError s b, ensure st)) ∧
    (oracle 0 = .fetchTimeout →
      makeRequest ensure oracle st =
        ([.ensureEv, .attemptEv .fetchTimeout], .timeoutFail, ensure st)) := by
  refine ⟨?_, ?_, ?_, ?_⟩
  · intro h0 h1
    simp [makeRequest, makeRequestLoop, h0, h1]
  · intro b h0 h1
    simp [makeRequest, makeRequestLoop, h0, h1]
  · intro s b h0 hs
    simp [makeRequest, makeRequestLoop, h0, hs]
  · intro h0
    simp [makeRequest, makeRequestLoop, h0]

theorem claim_C2_witness :
    (makeRequest (fun s => s) (fun _ => .connError) ⟨.running, 7⟩ =
      ([.ensureEv, .attemptEv .connError, .ensureEv, .attemptEv .connError],
        .netError, ⟨.failed, 0⟩)) ∧
    (makeRequest (fun s => s) (fun _ => .httpResp 500 "boom") ⟨.running, 7⟩ =
      ([.ensureEv, .attemptEv (.httpResp 500 "boom")], .appError 500 "boom",
        ⟨.running, 7⟩)) ∧
    (makeRequest (fun s => s) (fun _ => .fetchTimeout) ⟨.unknown, 3⟩ =
      ([.ensureEv, .attemptEv .fetchTimeout], .timeoutFail, ⟨.unknown, 3⟩)) :=
  ⟨(claim_C2_gateway_retry (fun s => s) (fun _ => .connError) ⟨.running, 7⟩).1 rfl rfl,
   (claim_C2_gateway_retry (fun s => s) (fun _ => .httpResp 500 "boom")
      ⟨.running, 7⟩).2.2.1 500 "boom" rfl (by decide),
   (claim_C2_gateway_retry (fun s => s) (fun _ => .fetchTimeout)
      ⟨.unknown, 3⟩).2.2.2 rfl⟩

/-! ## The health probe

* `DatabaseService.performHealthCheck` (unnamed/part_008, lines 96–148):
  throttled to one real probe per 5 s (inside the window it answers the
  cached flag), one `http.request` to `/ping` whose response, error and
  timeout callbacks all `resolve` a boolean — `statusCode === 200` on a
  response, `false` otherwise — wrapped in a `try/catch` whose catch arm
  returns `false`.
* `DatabaseService.isServerRunning` (unnamed/part_007, lines 103–114):
  one `fetch` of `/ping` returning `response.ok`, with a catch-all arm
  that marks the status `failed` and returns `false`.
-/

inductive ProbeOutcome where
  | respStatus (code : Nat) (body : String)
  | reqError (msg : String)
  | reqTimeout
  | exnThrown (msg : String)
deriving DecidableEq

structure HealthState where
  lastHealthCheck : Nat
  isServerRunning : Bool
deriving DecidableEq

/-- `performHealthCheck` at wall-clock `now`: result, number of probes
issued, and the updated static `lastHealthCheck`.  (`now -
lastHealthCheck` is Nat subtraction; the JS difference of two
`Date.now()` values compared with `< 5000` agrees with it because the
stored stamp never exceeds `now`.) -/
def performHealthCheck (now : Nat) (st : HealthState) (probe : Nat → ProbeOutcome) :
    Except String Bool × Nat × Nat :=
  if now - st.lastHealthCheck < 5000 then
    (.ok st.isServerRunning, 0, st.lastHealthCheck)
  else
    let inner : Except String Bool :=
      match probe 0 with
      | .respStatus c _ => .ok (c == 200)
      | .reqError _ => .ok false
      | .reqTimeout => .ok false
      | .exnThrown m => .error m
    match inner with
    | .error _ => (.ok false, 1, now)   -- the catch arm: `return false`
    | .ok b => (.ok b, 1, now)

/-- `isServerRunning` (part_007): result and updated `serverStatus`. -/
def isServerRunningProbe (status : ServerStatus) (o : FetchOutcome) :
    Bool × ServerStatus :=
  match o with
  | .httpResp s _ => (decide (200 ≤ s ∧ s < 300), status)
  | .connError => (false, .failed)
  | .fetchTimeout => (false, .failed)
  | .otherError _ => (false, .failed)

/-- **Claim C4.** The health probe never throws to its caller: for every
timing and every probe outcome the result is an `.ok` boolean; each
failure mode (non-success status, connection refusal/error, timeout,
internal exception) yields the unhealthy `false` result; and the probe
layer performs no retry — at most one probe is issued per call.  The
same collapse holds for `isServerRunning`. -/
theorem claim_C4_probe_total (now : Nat) (st : HealthState)
    (probe : Nat → ProbeOutcome) :
    (∃ b : Bool, (performHealthCheck now st probe).1 = .ok b) ∧
    (performHealthCheck now st probe).2.1 ≤ 1 ∧
    (¬ now - st.lastHealthCheck < 5000 →
      ((∀ c body, probe 0 = .respStatus c body → c ≠ 200 →
          (performHealthCheck now st probe).1 = .ok false) ∧
       (∀ m, probe 0 = .reqError m → (performHealthCheck now st probe).1 = .ok false) ∧
       (probe 0 = .reqTimeout → (performHealthCheck now st probe).1 = .ok false) ∧
       (∀ m, probe 0 = .exnThrown m → (performHealthCheck now st probe).1 = .ok false))) ∧
    (∀ (status : ServerStatus),
      (isServerRunningProbe status .connError).1 = false ∧
      (∀ m, (isServerRunningProbe status (.otherError m)).1 = false) ∧
      (∀ s b, ¬(200 ≤ s ∧ s < 300) →
        (isServerRunningProbe status (.httpResp s b)).1 = false)) := by
  refine ⟨?_, ?_, ?_, ?_⟩
  · by_cases h : now - st.lastHealthCheck < 5000
    · exact ⟨st.isServerRunning, by simp [performHealthCheck, h]⟩
    · cases hp : probe 0 with
      | respStatus c body => exact ⟨c == 200, by simp [performHealthCheck, h, hp]⟩
      | reqError m => exact ⟨false, by simp [performHealthCheck, h, hp]⟩
      | reqTimeout => exact ⟨false, by simp [performHealthCheck, h, hp]⟩
      | exnThrown m => exact ⟨false, by simp [performHealthCheck, h, hp]⟩
  · by_cases h : now - st.lastHealthCheck < 5000
    · simp [performHealthCheck, h]
    · cases hp : probe 0 <;> simp [performHealthCheck, h, hp]
  · intro h
    refine ⟨?_, ?_, ?_, ?_⟩
    · intro c body hp hc
      simp [performHealthCheck, h, hp, beq_eq_false_iff_ne.mpr hc]
    · intro m hp
      simp [performHealthCheck, h, hp]
    · intro hp
      simp [performHealthCheck, h, hp]
    · intro m hp
      simp [performHealthCheck, h, hp]
  · intro status
    refine ⟨rfl, fun m => rfl, fun s b hs => ?_⟩
    simp [isServerRunningProbe, hs]

theorem claim_C4_witness :
    (∃ b : Bool,
      (performHealthCheck 10000 ⟨0, true⟩ (fun _ => .reqTimeout)).1 = .ok b) ∧
    (performHealthCheck 10000 ⟨0, true⟩ (fun _ => .reqTimeout)).1 = .ok false ∧
    (performHealthCheck 10000 ⟨0, true⟩ (fun _ => .reqTimeout)).2.1 ≤ 1 ∧
    (isServerRunningProbe .running (.httpResp 503 "down")).1 = false := by
  have h := claim_C4_probe_total 10000 ⟨0, true⟩ (fun _ => .reqTimeout)
  refine ⟨h.1, ?_, h.2.1, ?_⟩
  · exact (h.2.2.1 (by decide)).2.2.1 rfl
  · exact ((h.2.2.2 .running).2.2) 503 "down" (by decide)

/-! ## The pending-connection guard (unnamed/part_007,
`DatabaseService.ensureServerRunning`, lines 28–51)

`ensureServerRunning` runs synchronously — Node is single-threaded up to
the first `await` — through: (1) if `this.connectionPromise` is set,
return it (the caller awaits the existing in-flight attempt); (2) if the
cached status is `running` and fresh, return; (3) otherwise store a new
`_ensureConnection()` promise in `connectionPromise`, await it, and
clear the field in the `finally`.  The interleaving of callers is
modelled as a labelled transition system: a `callEv` performs that
atomic synchronous prefix (the `fresh` flag abstracts the status
freshness test of step (2)); a `completeEv` is the settled attempt
resuming every caller awaiting it and the creator's `finally` clearing
the guard. -/

structure SupConc where
  pending : Option Nat
  nextOp : Nat
  waiting : List (Nat × Nat)
  starts : Nat
  completes : Nat
deriving DecidableEq

inductive SupEv where
  | callEv (caller : Nat) (fresh : Bool)
  | completeEv (op : Nat)

inductive SupStep : SupConc → SupEv → SupConc → Prop
  | attach {s : SupConc} {c : Nat} {fresh : Bool} {o : Nat}
      (h : s.pending = some o) :
      SupStep s (.callEv c fresh) { s with waiting := (c, o) :: s.waiting }
  | freshSkip {s : SupConc} {c : Nat} (h : s.pending = none) :
      SupStep s (.callEv c true) s
  | startOp {s : SupConc} {c : Nat} (h : s.pending = none) :
      SupStep s (.callEv c false)
        { pending := some s.nextOp, nextOp := s.nextOp + 1,
          waiting := (c, s.nextOp) :: s.waiting,
          starts := s.starts + 1, completes := s.completes }
  | finish {s : SupConc} {o : Nat} (h : s.pending = some o) :
      SupStep s (.completeEv o)
        { s with pending := none, completes := s.completes + 1,
                 waiting := s.waiting.filter (fun p => p.2 != o) }

def supInit : SupConc := ⟨none, 0, [], 0, 0⟩

inductive SupReach : SupConc → Prop
  | init : SupReach supInit
  | step {s s' : SupConc} {e : SupEv} : SupReach s → SupStep s e s' → SupReach s'

/-- The strengthened invariant: attempts started minus attempts
completed is exactly the pending count. -/
def SupInv (s : SupConc) : Prop :=
  s.starts = s.completes + (if s.pending.isSome then 1 else 0)

theorem supStep_inv {s s' : SupConc} {e : SupEv}
    (hinv : SupInv s) (hstep : SupStep s e s') : SupInv s' := by
  cases hstep with
  | attach h => simpa [SupInv] using hinv
  | freshSkip h => exact hinv
  | startOp h =>
    simp [SupInv, h] at hinv
    simp [SupInv, hinv]
  | finish h =>
    simp [SupInv, h] at hinv
    simp [SupInv, hinv]

theorem supReach_inv {s : SupConc} (hr : SupReach s) : SupInv s := by
  induction hr with
  | init => simp [SupInv, supInit]
  | step _ hstep ih => exact supStep_inv ih hstep

/-- **Claim C5.** Per Supervisor instance at most one ensure-ready
attempt is ever in flight (attempts started never exceed attempts
completed by more than one, in every reachable state), and a caller
that invokes `ensureServerRunning` while an attempt `o` is pending
performs no new health-check/launch attempt: its only possible step
attaches it to that same pending attempt `o`. -/
theorem claim_C5_single_inflight (s : SupConc) (hr : SupReach s) :
    s.starts - s.completes ≤ 1 ∧
    (∀ (c : Nat) (fresh : Bool) (s' : SupConc) (o : Nat),
      s.pending = some o → SupStep s (.callEv c fresh) s' →
        s' = { s with waiting := (c, o) :: s.waiting } ∧
        s'.starts = s.starts ∧ s'.pending = some o ∧ (c, o) ∈ s'.waiting) := by
  constructor
  · have h := supReach_inv hr
    simp only [SupInv] at h
    by_cases hp : s.pending.isSome <;> simp [hp] at h <;> omega
  · intro c fresh s' o hpend hstep
    cases hstep with
    | attach h =>
      rw [hpend] at h
      cases h
      refine ⟨rfl, rfl, hpend, by simp⟩
    | freshSkip h => rw [hpend] at h; cases h
    | startOp h => rw [hpend] at h; cases h

/-- A concrete mid-flight scenario: one caller starts the attempt, a
second caller arriving while it is pending can only attach to it. -/
theorem claim_C5_witness :
    (let s1 : SupConc := ⟨some 0, 1, [(7, 0)], 1, 0⟩
     s1.starts - s1.completes ≤ 1 ∧
       SupStep s1 (.callEv 8 false) { s1 with waiting := (8, 0) :: s1.waiting } ∧
       (8, 0) ∈ ((8, 0) :: s1.waiting)) := by
  have hr : SupReach ⟨some 0, 1, [(7, 0)], 1, 0⟩ :=
    SupReach.step SupReach.init (SupStep.startOp (s := supInit) (c := 7) rfl)
  have h := claim_C5_single_inflight ⟨some 0, 1, [(7, 0)], 1, 0⟩ hr
  refine ⟨h.1, ?_, ?_⟩
  · exact SupStep.attach (o := 0) rfl
  · have h2 := h.2 8 false ⟨some 0, 1, [(8, 0), (7, 0)], 1, 0⟩ 0 rfl
      (SupStep.attach (o := 0) rfl)
    exact h2.2.2.2

/-! ## HTTP `/format` handlers

* `unnamed/part_012`, lines 413–475: no token check; source taken from
  inline `code` else from `filePath` (404 when missing, 400 when
  neither); writes the formatted text back **only** under
  `if (saveToFile && filePath)`; always answers
  `{formatted, changed: formatted !== source}`.
* `core/src/server/HttpServer.ts`, lines 182–251: identical body behind
  a `securityToken` check against `this.validTokens`, the set that
  `setupValidTokens()` (lines 33–41) fills with the
  `PLUGIN_SECURITY_TOKEN` environment value when that is set and
  non-empty, plus the development token `"vscode-client"`.  A request
  whose token misses the set is answered `403` before any file system
  access; a request with a valid token runs the same body as the
  part_012 handler. -/

structure FormatReq where
  code : Option String
  filePath : Option String
  saveToFile : Bool
  securityToken : Option String

inductive FormatResp where
  | okF (formatted : String) (changed : Bool)
  | errF (status : Nat)
deriving DecidableEq

/-- `handleFormatRequest` (part_012): the response together with the
list of `fs.writeFileSync` calls it performs. -/
def handleFormatRequest (fsys : String → Option String) (req : FormatReq) :
    FormatResp × List (String × String) :=
  if jsTruthyOpt req.code then
    let sourceCode := req.code.getD ""
    let formatted := formatCode sourceCode
    let writes :=
      if req.saveToFile && jsTruthyOpt req.filePath then
        [(req.filePath.getD "", formatted)]
      else []
    (.okF formatted (!(formatted == sourceCode)), writes)
  else if jsTruthyOpt req.filePath then
    match fsys (req.filePath.getD "") with
    | some sourceCode =>
      let formatted := formatCode sourceCode
      let writes :=
        if req.saveToFile && jsTruthyOpt req.filePath then
          [(req.filePath.getD "", formatted)]
        else []
      (.okF formatted (!(formatted == sourceCode)), writes)
    | none => (.errF 404, [])
  else (.errF 400, [])

/-- `this.validTokens` after `setupValidTokens()` (core HttpServer.ts
33–41): the `PLUGIN_SECURITY_TOKEN` environment value when set and
non-empty (JS truthiness of `process.env.PLUGIN_SECURITY_TOKEN`), plus
the always-added `"vscode-client"`. -/
def validTokens (envTok : Option String) : List String :=
  (if jsTruthyOpt envTok then [envTok.getD ""] else []) ++ ["vscode-client"]

/-- `handleFormatRequest` (core HttpServer.ts): token gate in front of
the same body. -/
def handleFormatRequestCore (envTok : Option String)
    (fsys : String → Option String) (req : FormatReq) :
    FormatResp × List (String × String) :=
  if !(jsTruthyOpt req.securityToken)
      || !((validTokens envTok).contains (req.securityToken.getD "")) then
    (.errF 403, [])
  else handleFormatRequest fsys req

/-- **Claim C10.** The `POST /format` handler writes to the file system
only when the request carries both a truthy `saveToFile` and a truthy
`filePath`; whenever either is absent/falsy it performs no write and
only answers the formatted text with the changed flag, where
`changed = (formatted ≠ source)`.  The token-gated core variant obeys
the same write frame for every environment token: it never writes
unless both `saveToFile` and `filePath` are truthy, and behind a valid
token it runs exactly the part_012 body. -/
theorem claim_C10_format_frame (envTok : Option String)
    (fsys : String → Option String) (req : FormatReq) :
    ((handleFormatRequest fsys req).2 ≠ [] →
      req.saveToFile = true ∧ jsTruthyOpt req.filePath = true) ∧
    (req.saveToFile = false ∨ jsTruthyOpt req.filePath = false →
      (handleFormatRequest fsys req).2 = []) ∧
    (∀ s : String, req.code = some s → s ≠ "" →
      (handleFormatRequest fsys req).1 = .okF (formatCode s) (!(formatCode s == s))) ∧
    (∀ (p c : String), jsTruthyOpt req.code = false → req.filePath = some p →
      p ≠ "" → fsys p = some c →
      (handleFormatRequest fsys req).1 = .okF (formatCode c) (!(formatCode c == c))) ∧
    ((handleFormatRequestCore envTok fsys req).2 ≠ [] →
      req.saveToFile = true ∧ jsTruthyOpt req.filePath = true) ∧
    (req.saveToFile = false ∨ jsTruthyOpt req.filePath = false →
      (handleFormatRequestCore envTok fsys req).2 = []) ∧
    (jsTruthyOpt req.securityToken = true →
      (validTokens envTok).contains (req.securityToken.getD "") = true →
      handleFormatRequestCore envTok fsys req = handleFormatRequest fsys req) := by
  have hframe : req.saveToFile = false ∨ jsTruthyOpt req.filePath = false →
      (handleFormatRequest fsys req).2 = [] := by
    intro hdis
    have hs : (req.saveToFile && jsTruthyOpt req.filePath) = false := by
      rcases hdis with h | h <;> simp [h]
    by_cases hcode : jsTruthyOpt req.code
    · simp [handleFormatRequest, hcode, hs]
    · by_cases hfp : jsTruthyOpt req.filePath
      · have hs2 : req.saveToFile = false := by simpa [hfp] using hs
        cases hf : fsys (req.filePath.getD "") with
        | some c => simp [handleFormatRequest, hcode, hfp, hf, hs2]
        | none => simp [handleFormatRequest, hcode, hfp, hf]
      · simp [handleFormatRequest, hcode, hfp]
  have hone : (handleFormatRequest fsys req).2 ≠ [] →
      req.saveToFile = true ∧ jsTruthyOpt req.filePath = true := by
    intro hw
    by_cases hsave : req.saveToFile
    · by_cases hfile : jsTruthyOpt req.filePath
      · exact ⟨hsave, hfile⟩
      · exact absurd (hframe (Or.inr (by simpa using hfile))) hw
    · exact absurd (hframe (Or.inl (by simpa using hsave))) hw
  have hcore : ∀ r : FormatResp × List (String × String),
      handleFormatRequestCore envTok fsys req = r →
      r.2 = [] ∨ r = handleFormatRequest fsys req := by
    intro r hr
    unfold handleFormatRequestCore at hr
    by_cases hgate : (!(jsTruthyOpt req.securityToken)
        || !((validTokens envTok).contains (req.securityToken.getD ""))) = true
    · rw [if_pos hgate] at hr
      exact Or.inl (by rw [← hr])
    · rw [if_neg hgate] at hr
      exact Or.inr hr.symm
  refine ⟨hone, hframe, ?_, ?_, ?_, ?_, ?_⟩
  · intro s hcode hs
    simp [handleFormatRequest, jsTruthyOpt, hcode, hs]
  · intro p c hcode hfp hp hc
    have htp : jsTruthyOpt (some p) = true := by simp [jsTruthyOpt, hp]
    simp [handleFormatRequest, hcode, hfp, htp, hc]
  · intro hw
    rcases hcore _ rfl with h | h
    · exact absurd h hw
    · exact hone (by rw [← h]; exact hw)
  · intro hdis
    rcases hcore _ rfl with h | h
    · exact h
    · rw [h]; exact hframe hdis
  · intro htok hmem
    unfold handleFormatRequestCore
    rw [if_neg (by rw [htok, hmem]; decide)]

theorem claim_C10_witness :
    ((handleFormatRequest (fun _ => none)
        ⟨some "const a=1;", none, false, none⟩).2 = []) ∧
    ((handleFormatRequest (fun _ => none)
        ⟨some "const a=1;", none, false, none⟩).1
      = .okF (formatCode "const a=1;") (!(formatCode "const a=1;" == "const a=1;"))) ∧
    ((handleFormatRequestCore none (fun _ => none)
        ⟨some "const a=1;", some "/tmp/a.js", false, some "vscode-client"⟩).2 = []) ∧
    (handleFormatRequestCore none (fun _ => none)
        ⟨some "const a=1;", some "/tmp/a.js", false, some "vscode-client"⟩
      = handleFormatRequest (fun _ => none)
          ⟨some "const a=1;", some "/tmp/a.js", false, some "vscode-client"⟩) := by
  have h := claim_C10_format_frame none (fun _ => none)
    ⟨some "const a=1;", none, false, none⟩
  have h2 := claim_C10_format_frame none (fun _ => none)
    ⟨some "const a=1;", some "/tmp/a.js", false, some "vscode-client"⟩
  exact ⟨h.2.1 (Or.inl rfl), h.2.2.1 "const a=1;" rfl (by decide),
    h2.2.2.2.2.2.1 (Or.inl rfl), h2.2.2.2.2.2.2 (by decide) (by decide)⟩
